import Mathlib

set_option maxRecDepth 8000

/-!
Verification development for the CSV table component of SE2Dev/MODSoundGUI
(src/src/csv/csv.cpp).  The C++ code is shallowly embedded: C strings become
`List Char` (the characters up to the terminating NUL), the destructive
in-place tokenization becomes explicit `(token, remaining-context)` pairs,
`std::vector` operations become list operations, and the unbounded C loops
become fuel-indexed recursions returning `Option` (with `none` meaning the
loop did not finish within the given fuel).
-/

/-- A parsed CSV field: the characters of one cell value. -/
abbrev CsvField := List Char

/-- One row of the table: `std::vector<const char*>`. -/
abbrev CsvRow := List CsvField

/-- The cell grid of a `CSVStaticTable`: `std::vector<std::vector<const char*>> cells`. -/
abbrev Cells := List CsvRow

/-- The double-quote character, written via its code point so that no string or
character literal in this file has to contain a quote character. -/
def dquote : Char := Char.ofNat 34

/-- The carriage-return character. -/
def crC : Char := Char.ofNat 13

/-- Boolean test that the first list is a leading segment of the second; models
`strstr` matching at the current position. -/
def startsWith : List Char → List Char → Bool
  | [], _ => true
  | _ :: _, [] => false
  | d :: ds, c :: cs => d == c && startsWith ds cs

/-- Model of `strtok_c` (src/src/csv/csv.cpp lines 12-30): search the context for the
first occurrence of the delimiter (via `strstr`); if found, overwrite the delimiter
with terminators and return the token before it together with the context after it;
if not found, return NULL and leave the context unchanged (modelled by `none`; the
caller keeps its old context).  The delimiters used by the program are never empty. -/
def strtok_c (delim : List Char) : List Char → Option (List Char × List Char)
  | [] => none
  | c :: rest =>
    if startsWith delim (c :: rest) then some ([], (c :: rest).drop delim.length)
    else (strtok_c delim rest).map (fun p => (c :: p.1, p.2))

/-- Model of the quoted-field scanning loop inside `csvtok` (csv.cpp lines 46-59):
starting just after an opening quote, copy characters to the compacted position,
collapsing each escaped pair of quotes to a single quote, until a quote not
followed by another quote is found; that closing quote terminates the token and
the remainder after it is the new context.  Running off the end of the line
without a closing quote is a buffer overrun in the C code (its loop condition
compares the pointer, not the character, against NUL); that undefined case is
modelled as `none`. -/
def scanQuoted : List Char → Option (CsvField × List Char)
  | [] => none
  | c :: rest =>
    if c = dquote then
      match rest with
      | r :: rest2 =>
        if r = dquote then (scanQuoted rest2).map (fun p => (dquote :: p.1, p.2))
        else some ([], r :: rest2)
      | [] => some ([], [])
    else (scanQuoted rest).map (fun p => (c :: p.1, p.2))

/-- Model of `csvtok` (csv.cpp lines 36-63): if the context does not start with a
quote, delegate to `strtok_c` with delimiter a comma; otherwise unescape the quoted
field and then consume up to and including the next comma (discarding that token),
returning the unescaped field.  `none` models the C function returning NULL with
the context unchanged. -/
def csvtok (ctx : List Char) : Option (CsvField × List Char) :=
  if ctx.head? = some dquote then
    match scanQuoted ctx.tail with
    | none => none
    | some (tok, rem) =>
      match strtok_c [','] rem with
      | some q => some (tok, q.2)
      | none => some (tok, rem)
  else strtok_c [','] ctx

/-- Model of the per-line field loop of `ReadFile` (csv.cpp lines 208-216): repeatedly
call `csvtok`, pushing each returned token; when `csvtok` returns NULL, push the
leftover context as the final field of the row.  The fuel argument bounds the number
of iterations; `parseLine` supplies enough fuel for the loop to finish exactly as the
C loop does. -/
def parseFieldsAux : Nat → List Char → List CsvField
  | 0, ctx => [ctx]
  | fuel + 1, ctx =>
    match csvtok ctx with
    | none => [ctx]
    | some (tok, rest) => tok :: parseFieldsAux fuel rest

/-- Parse one line of a CSV file into its fields, as the row-building loop of
`ReadFile` does. -/
def parseLine (l : List Char) : List CsvField := parseFieldsAux (l.length + 1) l

/-- Model of the line-splitting loop of `ReadFile` (csv.cpp lines 200-228): repeatedly
call `strtok_c` with the delimiter CR LF; each found token is one line; when the
delimiter is not found the loop stops, discarding any leftover context after the
final CR LF. -/
def splitLinesAux : Nat → List Char → List (List Char)
  | 0, _ => []
  | fuel + 1, ctx =>
    match strtok_c [crC, Char.ofNat 10] ctx with
    | none => []
    | some (tok, rest) => tok :: splitLinesAux fuel rest

/-- Split file contents into lines at each literal two-byte CR LF separator. -/
def splitLines (content : List Char) : List (List Char) :=
  splitLinesAux (content.length + 1) content

/-- Model of the row-accumulation and shape check of `ReadFile` (csv.cpp lines
202-228) after the first row: each line is parsed into a row; a row whose field
count differs from the first row's count aborts with the error data that
`Con_Error` reports, namely the row index, the found count and the expected
count. -/
def buildCellsAux (expected : Nat) : Nat → List (List Char) → Except (Nat × Nat × Nat) Cells
  | _, [] => Except.ok []
  | i, l :: ls =>
    let row := parseLine l
    if row.length = expected then (buildCellsAux expected (i + 1) ls).map (fun cs => row :: cs)
    else Except.error (i, row.length, expected)

/-- Build the cell grid from the list of lines; the first row fixes the expected
field count (the C code compares row 0 against itself, which always passes). -/
def buildCells : List (List Char) → Except (Nat × Nat × Nat) Cells
  | [] => Except.ok []
  | l :: ls =>
    let row0 := parseLine l
    (buildCellsAux row0.length 1 ls).map (fun cs => row0 :: cs)

/-- Modelled from the spec: `RowCount` is declared in the repository header csv.h,
which is not under src/.  Per the spec, row 0 is the header and the row count is a
derived property counting the data rows, so `RowCount` is `cells.size() - 1`
(consistent with every use in csv.cpp: `CellValue` asserts
`row_index < RowCount()` before reading `cells[row_index + 1]`). -/
def RowCount (cells : Cells) : Nat := cells.length - 1

/-- Modelled from the spec: `FieldCount` is declared in the missing header csv.h;
per the spec the field count is derived from the header row, so it is
`cells[0].size()`. -/
def FieldCount (cells : Cells) : Nat := (cells.getD 0 []).length

/-- Model of `CSVStaticTable::FieldName` (csv.cpp lines 81-85): `cells[0][field_index]`.
The `_ASSERT` bounds checks become hypotheses of the theorems that use them;
out-of-bounds reads are resolved to the empty field. -/
def FieldName (cells : Cells) (field_index : Nat) : CsvField :=
  (cells.getD 0 []).getD field_index []

/-- Model of `CSVStaticTable::CellValue` (csv.cpp lines 87-93):
`cells[row_index + 1][field_index]`, skipping the header row. -/
def CellValue (cells : Cells) (row_index field_index : Nat) : CsvField :=
  (cells.getD (row_index + 1) []).getD field_index []

/-- Modelled from the spec: the load flags are a bitset of independently settable
bits declared in the missing header csv.h (`CSV_ST_PRUNE_EMPTY`,
`CSV_ST_PRUNE_COMMENTS`, `CSV_ST_HEADERLESS_SINGLEFIELD`); the bitmask is
modelled as one Boolean per bit. -/
structure LoadFlags where
  prune_empty : Bool
  prune_comments : Bool
  headerless_singlefield : Bool
deriving DecidableEq, Repr

/-- Test of `*field == '#'`: whether the first character of a field is the hash
character (an empty field has first character NUL, which is not a hash). -/
def startsWithHash (f : CsvField) : Bool :=
  match f with
  | c :: _ => c == '#'
  | [] => false

/-- Model of the content scan inside `PruneRows` (csv.cpp lines 111-120): scan field
indices `0 ≤ c < FieldCount` of the row and report whether any field there is
nonempty (`strlen` nonzero). -/
def rowHasContent (fieldCount : Nat) (row : CsvRow) : Bool :=
  (List.range fieldCount).any (fun c => !((row.getD c []).isEmpty))

/-- Loop state of `PruneRows`: the cell grid, the scan index `r`, the running pruned
count, and a flag recording whether every row access `cells[r+1]` made by the
`CSV_ST_PRUNE_EMPTY` branch so far was within the bounds of the row collection
(the C code performs such accesses unguarded after an erase; an out-of-bounds
access is undefined behaviour and is resolved here as an empty row). -/
structure PruneState where
  cells : Cells
  r : Nat
  pruned : Nat
  inBounds : Bool
deriving DecidableEq, Repr

/-- Model of one iteration of the `PruneRows` loop body (csv.cpp lines 103-127): if
comment pruning is on and row `r+1` starts with a hash, erase it; then, if empty
pruning is on, scan row `r+1` (of the possibly already shortened grid) for content,
advancing `r` when content is found and erasing the row otherwise.  Note that the
body leaves `r` unchanged when only comment pruning is enabled and the row is not
a comment. -/
def pruneRowsBody (flags : LoadFlags) (s : PruneState) : PruneState :=
  let s1 :=
    if flags.prune_comments && startsWithHash ((s.cells.getD (s.r + 1) []).getD 0 []) then
      { s with cells := s.cells.eraseIdx (s.r + 1), pruned := s.pruned + 1 }
    else s
  if flags.prune_empty then
    let ib := s1.inBounds && decide (s1.r + 1 < s1.cells.length)
    let row := s1.cells.getD (s1.r + 1) []
    if rowHasContent (FieldCount s1.cells) row then
      { s1 with r := s1.r + 1, inBounds := ib }
    else
      { s1 with cells := s1.cells.eraseIdx (s1.r + 1), pruned := s1.pruned + 1, inBounds := ib }
  else s1

/-- Fuel-indexed model of the `PruneRows` loop (csv.cpp lines 101-128):
`while (r < RowCount())` run the body; `none` means the loop had not terminated
after the given number of iterations. -/
def pruneRowsAux (flags : LoadFlags) : Nat → PruneState → Option PruneState
  | 0, _ => none
  | fuel + 1, s =>
    if s.r + 1 < s.cells.length then pruneRowsAux flags fuel (pruneRowsBody flags s)
    else some s

/-- Model of `CSVStaticTable::PruneRows` (csv.cpp lines 95-134): returns 0 at once when
neither prune bit is set, otherwise runs the scan loop.  The result is the final
grid, the pruned count that the function returns, and the in-bounds flag. -/
def PruneRows (flags : LoadFlags) (cells : Cells) (fuel : Nat) : Option (Cells × Nat × Bool) :=
  if flags.prune_empty || flags.prune_comments then
    (pruneRowsAux flags fuel ⟨cells, 0, 0, true⟩).map (fun s => (s.cells, s.pruned, s.inBounds))
  else some (cells, 0, true)

/-- Model of `CSVStaticTable::DeleteRow` (csv.cpp lines 136-139): erase the entry at
position `1 + row_index` of the row collection. -/
def DeleteRow (cells : Cells) (row_index : Nat) : Cells :=
  cells.eraseIdx (1 + row_index)

/-- Model of the inner row loop of `PruneColumns` (csv.cpp lines 153-159): for each
`r` with `1 ≤ r < RowCount()`, warn (recording the printed `actual_column`) when
`CellValue(r, c)` — which reads row `r + 1` — is nonempty, then erase entry `c`
of row `r`.  The fuel is instantiated with the grid size, which bounds the loop. -/
def pruneColsInnerAux : Nat → Cells → Nat → Nat → Nat → List Nat → Cells × List Nat
  | 0, cells, _, _, _, warns => (cells, warns)
  | fuel + 1, cells, c, actualCol, r, warns =>
    if r + 1 < cells.length then
      let warns2 := if ((cells.getD (r + 1) []).getD c []).isEmpty then warns
                    else warns ++ [actualCol]
      let cells2 := cells.set r ((cells.getD r []).eraseIdx c)
      pruneColsInnerAux fuel cells2 c actualCol (r + 1) warns2
    else (cells, warns)

/-- Model of the outer column loop of `PruneColumns` (csv.cpp lines 145-163): while
`c < FieldCount()`, skip columns whose header field is nonempty, and for each
empty-named column run the inner row loop, erase the header entry, and count the
column as pruned.  `actual_column` advances on every iteration. -/
def pruneColumnsAux : Nat → Cells → Nat → Nat → Nat → List Nat → Option (Cells × Nat × List Nat)
  | 0, _, _, _, _, _ => none
  | fuel + 1, cells, c, actualCol, pruned, warns =>
    if c < (cells.getD 0 []).length then
      if ((cells.getD 0 []).getD c []).isEmpty then
        let inner := pruneColsInnerAux cells.length cells c actualCol 1 warns
        let cells2 := inner.1.set 0 ((inner.1.getD 0 []).eraseIdx c)
        pruneColumnsAux fuel cells2 c (actualCol + 1) (pruned + 1) inner.2
      else pruneColumnsAux fuel cells (c + 1) (actualCol + 1) pruned warns
    else some (cells, pruned, warns)

/-- Model of `CSVStaticTable::PruneColumns` (csv.cpp lines 141-169): run the column
loop; the result is the final grid, the pruned-column count that the function
returns, and the list of `actual_column` values for which a warning was logged. -/
def PruneColumns (cells : Cells) : Option (Cells × Nat × List Nat) :=
  pruneColumnsAux ((cells.getD 0 []).length + 1) cells 0 0 0 []

/-- The literal header field pushed by the `CSV_ST_HEADERLESS_SINGLEFIELD` branch of
`ReadFile` (csv.cpp line 237). -/
def nameField : CsvField := ['n', 'a', 'm', 'e']

/-- State of a `CSVStaticTable` after `ReadFile` returns: the cell grid and the owned
buffer (`none` models `buf == NULL`, i.e. the buffer was released or never kept). -/
structure TableState where
  cells : Cells
  buf : Option (List Char)
deriving DecidableEq, Repr

/-- Model of `CSVStaticTable::ReadFile` (csv.cpp lines 176-242) on a fresh table.
`openOK` models `fopen_s` succeeding, `readOK` models `fread` returning a positive
count, and `content` is the bytes read into the buffer.  The paths are exactly the
C control flow: open failure frees the buffer and returns 1; a non-positive read
returns 3 while the table keeps the buffer; a shape mismatch clears the cells,
frees the buffer and returns 2; otherwise the flag-controlled normalization runs
and 0 is returned with the table owning the buffer.  The result is `none` when a
prune loop did not terminate within the given fuel. -/
def ReadFile (openOK readOK : Bool) (content : List Char) (flags : LoadFlags) (fuel : Nat) :
    Option (TableState × Nat) :=
  if !openOK then some (⟨[], none⟩, 1)
  else if !readOK then some (⟨[], some content⟩, 3)
  else
    match buildCells (splitLines content) with
    | Except.error _ => some (⟨[], none⟩, 2)
    | Except.ok cells0 =>
      let step1 : Option Cells :=
        if flags.prune_empty then (PruneColumns cells0).map (fun t => t.1) else some cells0
      match step1 with
      | none => none
      | some cells1 =>
        match PruneRows flags cells1 fuel with
        | none => none
        | some (cells2, _, _) =>
          let cells3 := if flags.headerless_singlefield then [nameField] :: cells2 else cells2
          some (⟨cells3, some content⟩, 0)

/-- Model of the quote-doubling loop of `PrintTable` (csv.cpp lines 279-285): write
each character of the field, doubling every double-quote. -/
def escQ : CsvField → List Char
  | [] => []
  | c :: f => (if c = dquote then [dquote, dquote] else [c]) ++ escQ f

/-- Model of `strpbrk(str, ",\"") != NULL` (csv.cpp line 276): the field contains a
comma or a double-quote and therefore needs quoting on output. -/
def needsQuote (f : CsvField) : Bool :=
  f.any (fun c => c == ',' || c == dquote)

/-- Serialization of one field by `PrintTable`: quoted with doubled inner quotes
when it contains a comma or quote, verbatim otherwise. -/
def printField (f : CsvField) : List Char :=
  if needsQuote f then dquote :: escQ f ++ [dquote] else f

/-- Serialization of one row by `PrintTable`: fields joined by commas, no trailing
delimiter after the last field. -/
def printRow : CsvRow → List Char
  | [] => []
  | [f] => printField f
  | f :: rest => printField f ++ ',' :: printRow rest

/-- Model of `CSVStaticTable::PrintTable` (csv.cpp lines 266-299) with
`include_debug_info = false`: every row, header included, is written followed by a
single newline character. -/
def printTableChars : Cells → List Char
  | [] => []
  | row :: rest => printRow row ++ '\n' :: printTableChars rest

/-- Text-mode output translation: `WriteFile` opens its stream with mode `w`
(text mode), so every newline character written by `PrintTable` reaches the file
as the two bytes CR LF. -/
def textMode : List Char → List Char
  | [] => []
  | c :: rest => (if c = '\n' then [crC, Char.ofNat 10] else [c]) ++ textMode rest

/-- The bytes that `WriteFile` places on disk for a table: the `PrintTable` output
after text-mode newline translation. -/
def printTableBytes (cells : Cells) : List Char := textMode (printTableChars cells)

/-- Outcome of `WriteFile`: the returned code, whether the output file was ever
opened for writing, and the bytes written (`none` when nothing was written). -/
structure WriteResult where
  code : Nat
  opened : Bool
  written : Option (List Char)
deriving DecidableEq, Repr

/-- Model of `CSVStaticTable::WriteFile` (csv.cpp lines 244-264): if the target
exists and overwriting was not requested, report an error and return 1 without
opening or writing anything; otherwise open the file (return 2 on failure) and
write the serialized table. -/
def WriteFile (fileExists overwrite openOK : Bool) (cells : Cells) : WriteResult :=
  if fileExists && !overwrite then ⟨1, false, none⟩
  else if !openOK then ⟨2, true, none⟩
  else ⟨0, true, some (printTableBytes cells)⟩

/-- Encoding of one source field for a well-formed CSV input: a quoted field is
wrapped in quotes with every inner quote doubled, an unquoted field appears
verbatim. -/
def encodeField : Bool → CsvField → List Char
  | true, f => dquote :: escQ f ++ [dquote]
  | false, f => f

/-- Encoding of one line of a well-formed CSV input: the encoded fields joined by
commas. -/
def encodeLine : List (CsvField × Bool) → List Char
  | [] => []
  | [fq] => encodeField fq.2 fq.1
  | fq :: rest => encodeField fq.2 fq.1 ++ ',' :: encodeLine rest

/-- Join lines with the CR LF record separator, one after every line including the
last. -/
def joinCRLF : List (List Char) → List Char
  | [] => []
  | l :: rest => l ++ crC :: Char.ofNat 10 :: joinCRLF rest

/-- Encoding of a whole well-formed CSV input from its table of fields, each field
carrying its quoting choice. -/
def encodeTable (tbl : List (List (CsvField × Bool))) : List Char :=
  joinCRLF (tbl.map encodeLine)

/-- Well-formedness of a field inside a line: an unquoted field contains no comma
and no quote (a quoted field may contain both, with quotes escaped by doubling in
the encoding). -/
def wfInLine (fq : CsvField × Bool) : Prop :=
  fq.2 = false → (',' ∉ fq.1 ∧ dquote ∉ fq.1)

/-- Well-formedness of a field of a well-formed CSV input: additionally no line-feed
character may occur in the field content, so that the record separator is
unambiguous. -/
def wfEncField (fq : CsvField × Bool) : Prop :=
  wfInLine fq ∧ '\n' ∉ fq.1

instance (fq : CsvField × Bool) : Decidable (wfInLine fq) := by
  unfold wfInLine; infer_instance

instance (fq : CsvField × Bool) : Decidable (wfEncField fq) := by
  unfold wfEncField; infer_instance

/-! Basic preserved-structure lemmas about the pruning loops. -/

theorem eraseIdx_succ_head? {α : Type} (l : List α) (i : Nat) :
    (l.eraseIdx (i + 1)).head? = l.head? := by
  cases l <;> simp [List.eraseIdx]

theorem pruneRowsBody_head? (flags : LoadFlags) (s : PruneState) :
    (pruneRowsBody flags s).cells.head? = s.cells.head? := by
  unfold pruneRowsBody
  split_ifs <;>
    simp [eraseIdx_succ_head?, apply_ite PruneState.cells, apply_ite List.head?]

theorem pruneRowsAux_head? (flags : LoadFlags) :
    ∀ (fuel : Nat) (s res : PruneState),
      pruneRowsAux flags fuel s = some res → res.cells.head? = s.cells.head? := by
  intro fuel
  induction fuel with
  | zero => intro s res h; simp [pruneRowsAux] at h
  | succ n ih =>
    intro s res h
    simp only [pruneRowsAux] at h
    split at h
    · exact (ih _ res h).trans (pruneRowsBody_head? flags s)
    · simp only [Option.some.injEq] at h
      rw [← h]

/-- Claim C10: the header row (row 0 of the cell grid) is never removed by any
row-removal operation: every erasure performed by `PruneRows` and `DeleteRow`
happens at an index offset by one past the header, so the first row of the grid
(whatever its content, including a first field starting with a hash or all-empty
fields) is still the first row afterwards, for every flag combination and every
table state on which the loop terminates. -/
theorem C10_header_preserved :
    (∀ (flags : LoadFlags) (cells : Cells) (fuel : Nat) (res : Cells × Nat × Bool),
        PruneRows flags cells fuel = some res → res.1.head? = cells.head?) ∧
    (∀ (cells : Cells) (row_index : Nat),
        (DeleteRow cells row_index).head? = cells.head?) := by
  constructor
  · intro flags cells fuel res h
    unfold PruneRows at h
    split at h
    · cases hx : pruneRowsAux flags fuel ⟨cells, 0, 0, true⟩ with
      | none => rw [hx] at h; exact Option.noConfusion h
      | some s =>
        rw [hx] at h
        have h2 : (s.cells, s.pruned, s.inBounds) = res :=
          Option.some.inj h
        rw [← h2]
        exact pruneRowsAux_head? flags fuel ⟨cells, 0, 0, true⟩ s hx
    · simp only [Option.some.injEq] at h
      rw [← h]
  · intro cells row_index
    have : 1 + row_index = row_index + 1 := Nat.add_comm 1 row_index
    unfold DeleteRow
    rw [this, eraseIdx_succ_head?]

/-- Witness for C10 at concrete inputs: pruning the empty data row of a two-row
grid keeps the header, and deleting data row 0 keeps the header. -/
theorem C10_witness :
    (PruneRows ⟨true, false, false⟩ [[['h']], [[]]] 5 = some ([[['h']]], 1, true) ∧
      ([[['h']]] : Cells).head? = ([[['h']], [[]]] : Cells).head?) ∧
    (DeleteRow [[['h']], [['x']]] 0).head? = ([[['h']], [['x']]] : Cells).head? :=
  ⟨⟨rfl, C10_header_preserved.1 ⟨true, false, false⟩ [[['h']], [[]]] 5 ([[['h']]], 1, true) rfl⟩,
   C10_header_preserved.2 [[['h']], [['x']]] 0⟩

/-- Claim C3: on a header plus the three data rows [a,,], [,,], [#comment,,] with
both prune bits set, the model of `PruneRows` does remove exactly the all-empty
row and the comment row, leaving the row [a,,] — but it returns 3 rather than 2,
and the in-bounds flag is false: after erasing the final comment row the
`CSV_ST_PRUNE_EMPTY` branch re-reads row index r+1 = 2 of the now two-row
collection, which is out of bounds (undefined behaviour in the C++; resolved in
the model as an empty row that is then counted as a third pruned row). -/
theorem C3_prune_rows_eval :
    PruneRows ⟨true, true, false⟩
      [[['x'], ['y'], ['z']], [['a'], [], []], [[], [], []],
        [['#', 'c', 'o', 'm', 'm', 'e', 'n', 't'], [], []]] 20 =
      some ([[['x'], ['y'], ['z']], [['a'], [], []]], 3, false) := by
  rfl

/-- Claim C4: on header [name,,age] with the single data row [x,ignored,30], the
model of `PruneColumns` erases the empty-named column only from the header: the
inner loop runs for 1 ≤ r < RowCount() = 1, i.e. never, so the data row keeps its
three fields (breaking the shape invariant) and no warning is logged — the
returned warning list is empty, the data row is unchanged, and only the header
becomes [name,age]. -/
theorem C4_prune_columns_eval :
    PruneColumns
      [[['n', 'a', 'm', 'e'], [], ['a', 'g', 'e']],
        [['x'], ['i', 'g', 'n', 'o', 'r', 'e', 'd'], ['3', '0']]] =
      some ([[['n', 'a', 'm', 'e'], ['a', 'g', 'e']],
        [['x'], ['i', 'g', 'n', 'o', 'r', 'e', 'd'], ['3', '0']]], 1, []) := by
  rfl

/-- Claim C5: with `CSV_ST_PRUNE_COMMENTS` set and `CSV_ST_PRUNE_EMPTY` clear, on a
table with one non-comment data row, the `PruneRows` loop body leaves its entire
state unchanged (only the empty-pruning branch ever advances r), so the loop
never terminates: for every amount of fuel the model returns `none`. -/
theorem C5_prune_rows_nontermination :
    ∀ fuel : Nat, PruneRows ⟨false, true, false⟩ [[['h']], [['x']]] fuel = none := by
  have key : ∀ fuel : Nat,
      pruneRowsAux ⟨false, true, false⟩ fuel ⟨[[['h']], [['x']]], 0, 0, true⟩ = none := by
    intro fuel
    induction fuel with
    | zero => rfl
    | succ n ih => exact ih
  intro fuel
  show Option.map (fun s : PruneState => (s.cells, s.pruned, s.inBounds))
      (pruneRowsAux ⟨false, true, false⟩ fuel ⟨[[['h']], [['x']]], 0, 0, true⟩) = none
  rw [key fuel]
  rfl

/-- Claim C7 counterexample: loading the input alpha LF beta LF (bare line feeds)
with the headerless-singlefield flag does not yield two data rows.  The line
splitter looks for the literal two-byte CR LF sequence, finds none, so no line is
ever produced; the resulting table is just the synthesized [name] header with
zero data rows, not the claimed two rows. -/
theorem C7_bare_lf_counterexample :
    ReadFile true true ['a', 'l', 'p', 'h', 'a', '\n', 'b', 'e', 't', 'a', '\n']
        ⟨false, false, true⟩ 1 =
      some (⟨[[nameField]],
        some ['a', 'l', 'p', 'h', 'a', '\n', 'b', 'e', 't', 'a', '\n']⟩, 0) ∧
    RowCount [[nameField]] ≠ 2 := by
  exact ⟨rfl, by decide⟩

/-- Claim C7 amended: with CR LF line endings — the record separator the program
actually matches — the headerless-singlefield load of alpha CRLF beta CRLF yields
the synthesized header [name] and exactly the two data rows [alpha] and [beta];
with bare LF endings it yields the header and no data rows. -/
theorem C7_crlf_amended :
    ReadFile true true
        ['a', 'l', 'p', 'h', 'a', crC, '\n', 'b', 'e', 't', 'a', crC, '\n']
        ⟨false, false, true⟩ 1 =
      some (⟨[[nameField], [['a', 'l', 'p', 'h', 'a']], [['b', 'e', 't', 'a']]],
        some ['a', 'l', 'p', 'h', 'a', crC, '\n', 'b', 'e', 't', 'a', crC, '\n']⟩, 0) ∧
    RowCount [[nameField], [['a', 'l', 'p', 'h', 'a']], [['b', 'e', 't', 'a']]] = 2 ∧
    CellValue [[nameField], [['a', 'l', 'p', 'h', 'a']], [['b', 'e', 't', 'a']]] 0 0 =
      ['a', 'l', 'p', 'h', 'a'] ∧
    CellValue [[nameField], [['a', 'l', 'p', 'h', 'a']], [['b', 'e', 't', 'a']]] 1 0 =
      ['b', 'e', 't', 'a'] := by
  exact ⟨rfl, rfl, rfl, rfl⟩

/-- Claim C8 counterexample: on the empty/failed-read path (`fread` returning a
non-positive count) `ReadFile` returns error code 3 without releasing the buffer:
the table still holds it, contradicting the claim that every error exit releases
the buffer. -/
theorem C8_readfail_counterexample :
    ReadFile true false ['x'] ⟨false, false, false⟩ 1 = some (⟨[], some ['x']⟩, 3) ∧
    (⟨[], some ['x']⟩ : TableState).buf ≠ none := by
  exact ⟨rfl, by simp⟩

/-- Claim C8 amended: on the file-unopenable path (code 1) and the shape-mismatch
path (code 2) the buffer is released and the table holds no buffer, but on the
empty/failed-read path (code 3) `ReadFile` returns with the table still holding
the buffer (it is only released later, by the destructor). -/
theorem C8_buffer_release_amended :
    ∀ (openOK readOK : Bool) (content : List Char) (flags : LoadFlags) (fuel : Nat)
      (st : TableState) (code : Nat),
      ReadFile openOK readOK content flags fuel = some (st, code) →
      ((code = 1 ∨ code = 2) → st.buf = none) ∧ (code = 3 → st.buf = some content) := by
  intro openOK readOK content flags fuel st code h
  unfold ReadFile at h
  cases openOK with
  | false =>
    have h2 : ((⟨[], none⟩ : TableState), 1) = (st, code) := Option.some.inj h
    have hst : st = ⟨[], none⟩ := (congrArg Prod.fst h2).symm
    have hc : code = 1 := (congrArg Prod.snd h2).symm
    subst hst; subst hc
    exact ⟨fun _ => rfl, fun hx => absurd hx (by decide)⟩
  | true =>
    cases readOK with
    | false =>
      have h2 : ((⟨[], some content⟩ : TableState), 3) = (st, code) := Option.some.inj h
      have hst : st = ⟨[], some content⟩ := (congrArg Prod.fst h2).symm
      have hc : code = 3 := (congrArg Prod.snd h2).symm
      subst hst; subst hc
      exact ⟨fun hx => absurd hx (by decide), fun _ => rfl⟩
    | true =>
      simp only [Bool.not_true, Bool.false_eq_true, if_false] at h
      cases hb : buildCells (splitLines content) with
      | error e =>
        rw [hb] at h
        have h2 : ((⟨[], none⟩ : TableState), 2) = (st, code) := Option.some.inj h
        have hst : st = ⟨[], none⟩ := (congrArg Prod.fst h2).symm
        have hc : code = 2 := (congrArg Prod.snd h2).symm
        subst hst; subst hc
        exact ⟨fun _ => rfl, fun hx => absurd hx (by decide)⟩
      | ok cells0 =>
        simp only [hb] at h
        cases hs1 : (if flags.prune_empty then (PruneColumns cells0).map (fun t => t.1)
            else some cells0) with
        | none => simp only [hs1] at h; exact Option.noConfusion h
        | some cells1 =>
          simp only [hs1] at h
          cases hs2 : PruneRows flags cells1 fuel with
          | none => simp only [hs2] at h; exact Option.noConfusion h
          | some trip =>
            obtain ⟨cells2, n2, b2⟩ := trip
            simp only [hs2] at h
            have h2 := Option.some.inj h
            have hc : code = 0 := (congrArg Prod.snd h2).symm
            subst hc
            exact ⟨fun hx => absurd hx (by simp), fun hx => absurd hx (by decide)⟩

/-- Witness for C8 amended at concrete inputs: a failed open returns code 1 with
the buffer released. -/
theorem C8_witness :
    ReadFile false true ['y'] ⟨false, false, false⟩ 1 = some (⟨[], none⟩, 1) ∧
    (⟨[], none⟩ : TableState).buf = none :=
  ⟨rfl,
    (C8_buffer_release_amended false true ['y'] ⟨false, false, false⟩ 1 ⟨[], none⟩ 1 rfl).1
      (Or.inl rfl)⟩

/-- Claim C9: when the target file exists and overwrite is false, `WriteFile`
reports error 1, never opens the file for writing and writes nothing; and the
file is opened for writing exactly when the target does not exist or overwrite
is requested. -/
theorem C9_overwrite_refusal :
    ∀ (cells : Cells) (fileExists overwrite openOK : Bool),
      (fileExists = true → overwrite = false →
        WriteFile fileExists overwrite openOK cells = ⟨1, false, none⟩) ∧
      ((WriteFile fileExists overwrite openOK cells).opened = true ↔
        (fileExists = false ∨ overwrite = true)) := by
  intro cells fileExists overwrite openOK
  constructor
  · intro hfe how
    subst hfe; subst how
    rfl
  · cases fileExists <;> cases overwrite <;> cases openOK <;> simp [WriteFile]

/-- Witness for C9 at concrete inputs: with an existing target and overwrite not
requested, the write is refused with nothing opened or written. -/
theorem C9_witness :
    WriteFile true false true [[['h']]] = ⟨1, false, none⟩ ∧
    ((WriteFile true false true [[['h']]]).opened = true ↔ (true = false ∨ false = true)) :=
  ⟨(C9_overwrite_refusal [[['h']]] true false true).1 rfl rfl,
    (C9_overwrite_refusal [[['h']]] true false true).2⟩

/-! Tokenizer splitting lemmas: where `strtok_c` finds its delimiter. -/

theorem strtok_c_comma_encode (pre suf : List Char) (h : ',' ∉ pre) :
    strtok_c [','] (pre ++ ',' :: suf) = some (pre, suf) := by
  induction pre with
  | nil => simp [strtok_c, startsWith]
  | cons a pre ih =>
    have ha : (',' == a) = false := by
      have : a ≠ ',' := fun e => h (e ▸ List.mem_cons_self a pre)
      simp [this.symm]
    have h' : ',' ∉ pre := fun hm => h (List.mem_cons_of_mem a hm)
    simp [strtok_c, startsWith, ha, ih h']

theorem strtok_c_comma_none (l : List Char) (h : ',' ∉ l) :
    strtok_c [','] l = none := by
  induction l with
  | nil => rfl
  | cons a l ih =>
    have ha : (',' == a) = false := by
      have : a ≠ ',' := fun e => h (e ▸ List.mem_cons_self a l)
      simp [this.symm]
    have h' : ',' ∉ l := fun hm => h (List.mem_cons_of_mem a hm)
    simp [strtok_c, startsWith, ha, ih h']

theorem strtok_c_crlf_encode (pre suf : List Char) (h : '\n' ∉ pre) :
    strtok_c [crC, '\n'] (pre ++ crC :: '\n' :: suf) = some (pre, suf) := by
  induction pre with
  | nil => simp [strtok_c, startsWith]
  | cons a pre ih =>
    have h' : '\n' ∉ pre := fun hm => h (List.mem_cons_of_mem a hm)
    have hsw : startsWith [crC, '\n'] (a :: (pre ++ crC :: '\n' :: suf)) = false := by
      cases pre with
      | nil =>
        have : ('\n' == crC) = false := by decide
        simp [startsWith, this]
      | cons b pre2 =>
        have hb : ('\n' == b) = false := by
          have : b ≠ '\n' := fun e => h' (e ▸ List.mem_cons_self b pre2)
          simp [this.symm]
        simp [startsWith, hb]
    simp [strtok_c, hsw, ih h']

/-! Lemmas about the quoted-field scanner and `csvtok` on encoded fields. -/

theorem scanQuoted_escQ (f : CsvField) (tail : List Char) (h : tail.head? ≠ some dquote) :
    scanQuoted (escQ f ++ dquote :: tail) = some (f, tail) := by
  induction f with
  | nil =>
    cases tail with
    | nil => simp [scanQuoted, escQ]
    | cons t ts =>
      have ht : t ≠ dquote := by
        intro e
        exact h (by simp [e])
      simp [scanQuoted, escQ, ht]
  | cons c f ih =>
    by_cases hc : c = dquote
    · subst hc
      simp [escQ, scanQuoted, ih]
    · have he : escQ (c :: f) ++ dquote :: tail = c :: (escQ f ++ dquote :: tail) := by
        simp [escQ, hc]
      rw [he, scanQuoted.eq_def]
      simp [hc, ih]

theorem csvtok_unq_none (f : CsvField) (hc : ',' ∉ f) (hq : dquote ∉ f) :
    csvtok f = none := by
  have hhead : f.head? ≠ some dquote := by
    cases f with
    | nil => simp
    | cons a f =>
      have : a ≠ dquote := fun e => hq (e ▸ List.mem_cons_self a f)
      simp [this]
  simp [csvtok, hhead, strtok_c_comma_none f hc]

theorem csvtok_unq_cons (f : CsvField) (suf : List Char) (hc : ',' ∉ f) (hq : dquote ∉ f) :
    csvtok (f ++ ',' :: suf) = some (f, suf) := by
  have hhead : ¬((f ++ ',' :: suf).head? = some dquote) := by
    cases f with
    | nil =>
      have : (',' : Char) ≠ dquote := by decide
      simp [this]
    | cons a f =>
      have : a ≠ dquote := fun e => hq (e ▸ List.mem_cons_self a f)
      simp [this]
  unfold csvtok
  rw [if_neg hhead]
  exact strtok_c_comma_encode f suf hc

theorem csvtok_q_cons (f : CsvField) (suf : List Char) :
    csvtok (dquote :: (escQ f ++ dquote :: ',' :: suf)) = some (f, suf) := by
  have hscan : scanQuoted (escQ f ++ dquote :: ',' :: suf) = some (f, ',' :: suf) := by
    apply scanQuoted_escQ
    have : (',' : Char) ≠ dquote := by decide
    simp [this]
  have hcomma : strtok_c [','] (',' :: suf) = some ([], suf) := by
    have := strtok_c_comma_encode [] suf (by simp)
    simpa using this
  simp [csvtok, hscan, hcomma]

theorem csvtok_q_last (f : CsvField) :
    csvtok (dquote :: (escQ f ++ [dquote])) = some (f, []) := by
  have hscan : scanQuoted (escQ f ++ dquote :: []) = some (f, []) := by
    apply scanQuoted_escQ
    simp
  simp [csvtok, hscan, strtok_c]

/-- Quoting choice of the last field of an encoded line; a line whose last field
is quoted parses with one extra empty field, because after the closing quote the
context is empty and the field loop still pushes the leftover. -/
def lastQuoted : List (CsvField × Bool) → Bool
  | [] => false
  | [fq] => fq.2
  | _ :: rest => lastQuoted rest

theorem parseFieldsAux_encodeLine :
    ∀ (fs : List (CsvField × Bool)) (fuel : Nat), fs ≠ [] →
      (∀ fq ∈ fs, wfInLine fq) →
      fs.length + (if lastQuoted fs then 1 else 0) ≤ fuel →
      parseFieldsAux fuel (encodeLine fs) =
        fs.map (fun fq => fq.1) ++ (if lastQuoted fs then [[]] else []) := by
  intro fs
  induction fs with
  | nil => intro fuel h; exact absurd rfl h
  | cons fq fs ih =>
    intro fuel _ hwf hfuel
    cases fs with
    | nil =>
      obtain ⟨f, q⟩ := fq
      have hw := hwf (f, q) (by simp)
      cases q with
      | false =>
        have hc := (hw rfl).1
        have hq := (hw rfl).2
        have h1 : 1 ≤ fuel := by
          simpa [lastQuoted] using hfuel
        obtain ⟨n, rfl⟩ := Nat.exists_eq_add_of_le h1
        simp [encodeLine, encodeField, lastQuoted, parseFieldsAux, Nat.add_comm,
          csvtok_unq_none f hc hq]
      | true =>
        have h2 : 2 ≤ fuel := by
          simpa [lastQuoted] using hfuel
        obtain ⟨n, rfl⟩ := Nat.exists_eq_add_of_le h2
        have he : encodeLine [(f, true)] = dquote :: (escQ f ++ [dquote]) := by
          simp [encodeLine, encodeField]
        rw [show 2 + n = n + 1 + 1 by omega]
        rw [he]
        rw [parseFieldsAux, csvtok_q_last f]
        simp [lastQuoted, parseFieldsAux, csvtok_unq_none [] (by simp) (by simp)]
    | cons fq2 fs2 =>
      obtain ⟨f, q⟩ := fq
      have hw := hwf (f, q) (by simp)
      have hlq : lastQuoted ((f, q) :: fq2 :: fs2) = lastQuoted (fq2 :: fs2) := rfl
      have hne2 : fq2 :: fs2 ≠ [] := by simp
      have hwf2 : ∀ x ∈ fq2 :: fs2, wfInLine x := fun x hx => hwf x (List.mem_cons_of_mem _ hx)
      have h1 : (fq2 :: fs2).length + (if lastQuoted (fq2 :: fs2) then 1 else 0) + 1 ≤ fuel := by
        rw [hlq] at hfuel
        simp only [List.length_cons] at hfuel ⊢
        omega
      obtain ⟨n, rfl⟩ := Nat.exists_eq_add_of_le h1
      have hstep : csvtok (encodeLine ((f, q) :: fq2 :: fs2)) =
          some (f, encodeLine (fq2 :: fs2)) := by
        cases q with
        | false =>
          have hc := (hw rfl).1
          have hq := (hw rfl).2
          have he : encodeLine ((f, false) :: fq2 :: fs2) =
              f ++ ',' :: encodeLine (fq2 :: fs2) := by
            simp [encodeLine, encodeField]
          rw [he]
          exact csvtok_unq_cons f _ hc hq
        | true =>
          have he : encodeLine ((f, true) :: fq2 :: fs2) =
              dquote :: (escQ f ++ dquote :: ',' :: encodeLine (fq2 :: fs2)) := by
            simp [encodeLine, encodeField]
          rw [he]
          exact csvtok_q_cons f _
      have hfuel2 : (fq2 :: fs2).length + (if lastQuoted (fq2 :: fs2) then 1 else 0) ≤
          (fq2 :: fs2).length + (if lastQuoted (fq2 :: fs2) then 1 else 0) + n := by omega
      rw [show (fq2 :: fs2).length + (if lastQuoted (fq2 :: fs2) then 1 else 0) + 1 + n =
          ((fq2 :: fs2).length + (if lastQuoted (fq2 :: fs2) then 1 else 0) + n) + 1 by omega]
      rw [parseFieldsAux, hstep]
      show f :: parseFieldsAux
          ((fq2 :: fs2).length + (if lastQuoted (fq2 :: fs2) then 1 else 0) + n)
          (encodeLine (fq2 :: fs2)) = _
      rw [ih _ hne2 hwf2 hfuel2]
      simp [hlq]

theorem encodeLine_fuel :
    ∀ fs : List (CsvField × Bool), fs ≠ [] →
      fs.length + (if lastQuoted fs then 1 else 0) ≤ (encodeLine fs).length + 1 := by
  intro fs
  induction fs with
  | nil => intro h; exact absurd rfl h
  | cons fq fs ih =>
    intro _
    cases fs with
    | nil =>
      obtain ⟨f, q⟩ := fq
      cases q with
      | false => simp [lastQuoted, encodeLine, encodeField]
      | true =>
        have : (encodeLine [(f, true)]).length = (escQ f).length + 2 := by
          simp [encodeLine, encodeField]
        simp only [lastQuoted, this, List.length_cons, List.length_nil, if_true]
        omega
    | cons fq2 fs2 =>
      have hlq : lastQuoted (fq :: fq2 :: fs2) = lastQuoted (fq2 :: fs2) := rfl
      have hlen : (encodeLine (fq :: fq2 :: fs2)).length =
          (encodeField fq.2 fq.1).length + 1 + (encodeLine (fq2 :: fs2)).length := by
        show (encodeField fq.2 fq.1 ++ ',' :: encodeLine (fq2 :: fs2)).length = _
        simp
        omega
      have := ih (by simp)
      rw [hlq, hlen]
      simp only [List.length_cons] at this ⊢
      omega

theorem parseLine_encodeLine (fs : List (CsvField × Bool)) (hne : fs ≠ [])
    (hwf : ∀ fq ∈ fs, wfInLine fq) :
    parseLine (encodeLine fs) =
      fs.map (fun fq => fq.1) ++ (if lastQuoted fs then [[]] else []) :=
  parseFieldsAux_encodeLine fs ((encodeLine fs).length + 1) hne hwf (encodeLine_fuel fs hne)

/-! Line-splitting of CR LF joined lines. -/

theorem splitLinesAux_joinCRLF :
    ∀ (ls : List (List Char)) (fuel : Nat),
      (∀ l ∈ ls, '\n' ∉ l) → (joinCRLF ls).length < fuel →
      splitLinesAux fuel (joinCRLF ls) = ls := by
  intro ls
  induction ls with
  | nil =>
    intro fuel _ hf
    cases fuel with
    | zero => omega
    | succ n => rfl
  | cons l ls ih =>
    intro fuel hnl hf
    have hjlen : (joinCRLF (l :: ls)).length = l.length + 2 + (joinCRLF ls).length := by
      show (l ++ crC :: Char.ofNat 10 :: joinCRLF ls).length = _
      simp
      omega
    cases fuel with
    | zero => omega
    | succ n =>
      have hl : '\n' ∉ l := hnl l (by simp)
      have hrest : ∀ x ∈ ls, '\n' ∉ x := fun x hx => hnl x (List.mem_cons_of_mem l hx)
      have hsplit : strtok_c [crC, Char.ofNat 10] (joinCRLF (l :: ls)) =
          some (l, joinCRLF ls) := by
        show strtok_c [crC, Char.ofNat 10] (l ++ crC :: Char.ofNat 10 :: joinCRLF ls) = _
        exact strtok_c_crlf_encode l (joinCRLF ls) hl
      have hlen2 : (joinCRLF ls).length < n := by omega
      rw [splitLinesAux, hsplit]
      show l :: splitLinesAux n (joinCRLF ls) = l :: ls
      rw [ih n hrest hlen2]

theorem splitLines_joinCRLF (ls : List (List Char)) (h : ∀ l ∈ ls, '\n' ∉ l) :
    splitLines (joinCRLF ls) = ls :=
  splitLinesAux_joinCRLF ls ((joinCRLF ls).length + 1) h (Nat.lt_succ_self _)

/-! Character-membership bounds for encoded lines. -/

theorem mem_escQ (c : Char) (f : CsvField) (h : c ∈ escQ f) : c ∈ f ∨ c = dquote := by
  induction f with
  | nil => exact absurd h (by simp [escQ])
  | cons a f ih =>
    have h' : c ∈ (if a = dquote then [dquote, dquote] else [a]) ++ escQ f := h
    rcases List.mem_append.mp h' with h1 | h1
    · by_cases ha : a = dquote
      · right
        rw [if_pos ha] at h1
        simpa using h1
      · left
        rw [if_neg ha] at h1
        have hca : c = a := by simpa using h1
        exact hca ▸ List.mem_cons_self a f
    · rcases ih h1 with h2 | h2
      · exact Or.inl (List.mem_cons_of_mem _ h2)
      · exact Or.inr h2

theorem mem_encodeField (c : Char) (q : Bool) (f : CsvField) (h : c ∈ encodeField q f) :
    c ∈ f ∨ c = dquote := by
  cases q with
  | false => exact Or.inl h
  | true =>
    have h' : c ∈ (dquote :: escQ f) ++ [dquote] := h
    rcases List.mem_append.mp h' with h1 | h1
    · rcases List.mem_cons.mp h1 with h2 | h2
      · exact Or.inr h2
      · exact mem_escQ c f h2
    · right
      simpa using h1

theorem mem_encodeLine (c : Char) :
    ∀ fs : List (CsvField × Bool), c ∈ encodeLine fs →
      c = ',' ∨ c = dquote ∨ ∃ fq ∈ fs, c ∈ fq.1 := by
  intro fs
  induction fs with
  | nil => intro h; exact absurd h (by simp [encodeLine])
  | cons fq fs ih =>
    intro h
    cases fs with
    | nil =>
      rcases mem_encodeField c fq.2 fq.1 h with h2 | h2
      · exact Or.inr (Or.inr ⟨fq, by simp, h2⟩)
      · exact Or.inr (Or.inl h2)
    | cons fq2 fs2 =>
      have he : encodeLine (fq :: fq2 :: fs2) =
          encodeField fq.2 fq.1 ++ ',' :: encodeLine (fq2 :: fs2) := rfl
      rw [he] at h
      simp only [List.mem_append, List.mem_cons] at h
      rcases h with h | h | h
      · rcases mem_encodeField c fq.2 fq.1 h with h2 | h2
        · exact Or.inr (Or.inr ⟨fq, by simp, h2⟩)
        · exact Or.inr (Or.inl h2)
      · exact Or.inl h
      · rcases ih h with h2 | h2 | ⟨x, hx, hcx⟩
        · exact Or.inl h2
        · exact Or.inr (Or.inl h2)
        · exact Or.inr (Or.inr ⟨x, List.mem_cons_of_mem _ hx, hcx⟩)

theorem lf_not_mem_encodeLine (fs : List (CsvField × Bool))
    (h : ∀ fq ∈ fs, '\n' ∉ fq.1) : '\n' ∉ encodeLine fs := by
  intro hmem
  rcases mem_encodeLine '\n' fs hmem with h2 | h2 | ⟨fq, hfq, hc⟩
  · exact absurd h2 (by decide)
  · exact absurd h2 (by decide)
  · exact h fq hfq hc

/-! Facts about `buildCells`. -/

theorem buildCellsAux_ok (expected : Nat) :
    ∀ (ls : List (List Char)) (i : Nat) (cs : Cells),
      buildCellsAux expected i ls = Except.ok cs → cs = ls.map parseLine := by
  intro ls
  induction ls with
  | nil =>
    intro i cs h
    have h2 : Except.ok ([] : Cells) = Except.ok cs := h
    exact (Except.ok.inj h2).symm
  | cons l ls ih =>
    intro i cs h
    simp only [buildCellsAux] at h
    split at h
    · cases hr : buildCellsAux expected (i + 1) ls with
      | error e => rw [hr] at h; exact Except.noConfusion h
      | ok cs2 =>
        rw [hr] at h
        have h2 : parseLine l :: cs2 = cs := Except.ok.inj h
        rw [← h2, ih (i + 1) cs2 hr]
        rfl
    · exact Except.noConfusion h

theorem buildCellsAux_ok_of (expected : Nat) :
    ∀ (ls : List (List Char)) (i : Nat),
      (∀ l ∈ ls, (parseLine l).length = expected) →
      buildCellsAux expected i ls = Except.ok (ls.map parseLine) := by
  intro ls
  induction ls with
  | nil => intro i _; rfl
  | cons l ls ih =>
    intro i h
    have h0 : (parseLine l).length = expected := h l (by simp)
    have hrest : ∀ x ∈ ls, (parseLine x).length = expected :=
      fun x hx => h x (List.mem_cons_of_mem l hx)
    simp only [buildCellsAux, if_pos h0, ih (i + 1) hrest]
    rfl

theorem buildCells_ok (lines : List (List Char)) (cs : Cells)
    (h : buildCells lines = Except.ok cs) : cs = lines.map parseLine := by
  cases lines with
  | nil =>
    have h2 := Except.ok.inj h
    simp [← h2]
  | cons l ls =>
    simp only [buildCells] at h
    cases hr : buildCellsAux (parseLine l).length 1 ls with
    | error e => rw [hr] at h; exact Except.noConfusion h
    | ok cs2 =>
      rw [hr] at h
      have h2 : parseLine l :: cs2 = cs := Except.ok.inj h
      rw [← h2, buildCellsAux_ok (parseLine l).length ls 1 cs2 hr]
      rfl

theorem buildCells_ok_of (lines : List (List Char))
    (h : ∀ l ∈ lines, (parseLine l).length = (parseLine (lines.getD 0 [])).length) :
    buildCells lines = Except.ok (lines.map parseLine) := by
  cases lines with
  | nil => rfl
  | cons l ls =>
    have hrest : ∀ x ∈ ls, (parseLine x).length = (parseLine l).length := by
      intro x hx
      have := h x (List.mem_cons_of_mem l hx)
      simpa using this
    simp only [buildCells, buildCellsAux_ok_of (parseLine l).length ls 1 hrest]
    rfl

theorem buildCellsAux_error_of_mismatch (expected : Nat) :
    ∀ (ls : List (List Char)) (i : Nat),
      (∃ k, k < ls.length ∧ (parseLine (ls.getD k [])).length ≠ expected) →
      ∃ k found, k < ls.length ∧ found = (parseLine (ls.getD k [])).length ∧
        found ≠ expected ∧ buildCellsAux expected i ls = Except.error (i + k, found, expected) := by
  intro ls
  induction ls with
  | nil =>
    intro i ⟨k, hk, _⟩
    exact absurd hk (by simp)
  | cons l ls ih =>
    intro i ⟨k, hk, hne⟩
    by_cases h0 : (parseLine l).length = expected
    · have htail : ∃ k, k < ls.length ∧ (parseLine (ls.getD k [])).length ≠ expected := by
        cases k with
        | zero => exact absurd (by simpa using h0) hne
        | succ k2 =>
          refine ⟨k2, by simpa using hk, ?_⟩
          simpa using hne
      obtain ⟨k2, found, hk2, hf, hne2, heq⟩ := ih (i + 1) htail
      refine ⟨k2 + 1, found, by simpa using hk2, by simpa using hf, hne2, ?_⟩
      simp only [buildCellsAux, if_pos h0, heq]
      have harith : i + 1 + k2 = i + (k2 + 1) := by omega
      rw [harith]
      rfl
    · exact ⟨0, (parseLine l).length, by simp, by simp, h0, by simp [buildCellsAux, h0]⟩

/-- Claim C6: if any line of the input yields a field count different from row 0's
field count, loading fails: `buildCells` aborts with an error carrying a row index
at which the mismatch occurs, the found field count of that row and the expected
count derived from row 0, and `ReadFile` (regardless of flags) returns error code
2 with the cell grid left empty and the buffer released. -/
theorem C6_shape_error
    (content : List Char) (flags : LoadFlags) (fuel : Nat)
    (hmis : ∃ i, i < (splitLines content).length ∧
      (parseLine ((splitLines content).getD i [])).length ≠
        (parseLine ((splitLines content).getD 0 [])).length) :
    ∃ j found,
      buildCells (splitLines content) =
        Except.error (j, found, (parseLine ((splitLines content).getD 0 [])).length) ∧
      j < (splitLines content).length ∧
      found = (parseLine ((splitLines content).getD j [])).length ∧
      found ≠ (parseLine ((splitLines content).getD 0 [])).length ∧
      ReadFile true true content flags fuel = some (⟨[], none⟩, 2) := by
  cases hsl : splitLines content with
  | nil =>
    rw [hsl] at hmis
    obtain ⟨i, hi, _⟩ := hmis
    exact absurd hi (by simp)
  | cons l0 ls =>
    rw [hsl] at hmis
    obtain ⟨i, hi, hne⟩ := hmis
    have htail : ∃ k, k < ls.length ∧
        (parseLine (ls.getD k [])).length ≠ (parseLine l0).length := by
      cases i with
      | zero => exact absurd rfl hne
      | succ i2 =>
        refine ⟨i2, by simpa using hi, ?_⟩
        have hg : ((l0 :: ls).getD (i2 + 1) []) = ls.getD i2 [] := by simp
        have hg0 : ((l0 :: ls).getD 0 []) = l0 := by simp
        rw [hg, hg0] at hne
        exact hne
    obtain ⟨k, found, hk, hf, hne2, heq⟩ :=
      buildCellsAux_error_of_mismatch (parseLine l0).length ls 1 htail
    have hbc : buildCells (l0 :: ls) =
        Except.error (1 + k, found, (parseLine l0).length) := by
      simp only [buildCells, heq]
      rfl
    have hg0 : ((l0 :: ls).getD 0 []) = l0 := by simp
    refine ⟨1 + k, found, ?_, ?_, ?_, ?_, ?_⟩
    · rw [hg0]
      exact hbc
    · simp only [List.length_cons]
      omega
    · have h1k : 1 + k = k + 1 := by omega
      rw [h1k]
      simpa using hf
    · rw [hg0]
      exact hne2
    · unfold ReadFile
      rw [hsl, hbc]
      rfl

/-- Witness for C6 at a concrete input: the two lines a,b and c (fields 2 and 1)
produce the shape error at row 1 with found 1, expected 2, and the failed load
leaves an empty grid and no buffer. -/
theorem C6_witness :
    ∃ j found,
      buildCells (splitLines ['a', ',', 'b', crC, '\n', 'c', crC, '\n']) =
        Except.error (j, found,
          (parseLine ((splitLines ['a', ',', 'b', crC, '\n', 'c', crC, '\n']).getD 0 [])).length) ∧
      j < (splitLines ['a', ',', 'b', crC, '\n', 'c', crC, '\n']).length ∧
      found = (parseLine ((splitLines ['a', ',', 'b', crC, '\n', 'c', crC, '\n']).getD j [])).length ∧
      found ≠ (parseLine ((splitLines ['a', ',', 'b', crC, '\n', 'c', crC, '\n']).getD 0 [])).length ∧
      ReadFile true true ['a', ',', 'b', crC, '\n', 'c', crC, '\n'] ⟨false, false, false⟩ 1 =
        some (⟨[], none⟩, 2) :=
  C6_shape_error ['a', ',', 'b', crC, '\n', 'c', crC, '\n'] ⟨false, false, false⟩ 1
    ⟨1, by decide, by decide⟩

/-- Claim C1: for every well-formed CSV input — encoded from a table of fields in
which each quoted field may contain commas and quotes (escaped by doubling) and
each unquoted field contains neither, no field containing a line feed — after a
successful `ReadFile` with no flags set, `CellValue(r, f)` returns exactly the
original field content with quoting undone for every row index r and field index
f valid in the original table (r + 1 < number of lines, f < field count),
including when the quoted field is the last field of its line (in which case the
stored row carries one extra phantom empty field beyond the original indices). -/
theorem C1_load_recovers_cells
    (tbl : List (List (CsvField × Bool))) (M : Nat)
    (hrows : ∀ row ∈ tbl, row.length = M)
    (hwf : ∀ row ∈ tbl, ∀ fq ∈ row, wfEncField fq)
    (fuel : Nat) (st : TableState)
    (hload : ReadFile true true (encodeTable tbl) ⟨false, false, false⟩ fuel = some (st, 0))
    (r f : Nat) (hr : r + 1 < tbl.length) (hf : f < M) :
    CellValue st.cells r f = ((tbl.getD (r + 1) []).getD f ([], false)).1 := by
  have hnl_lines : ∀ l ∈ tbl.map encodeLine, '\n' ∉ l := by
    intro l hl
    obtain ⟨rowx, hrowx, rfl⟩ := List.mem_map.mp hl
    exact lf_not_mem_encodeLine rowx (fun fq hfq => (hwf rowx hrowx fq hfq).2)
  have hsl : splitLines (encodeTable tbl) = tbl.map encodeLine := by
    show splitLines (joinCRLF (tbl.map encodeLine)) = tbl.map encodeLine
    exact splitLines_joinCRLF _ hnl_lines
  unfold ReadFile at hload
  cases hb : buildCells (splitLines (encodeTable tbl)) with
  | error e =>
    rw [hb] at hload
    have hload2 : some ((⟨[], none⟩ : TableState), 2) = some (st, 0) := hload
    have h2 := Option.some.inj hload2
    have h3 : (2 : Nat) = 0 := congrArg Prod.snd h2
    exact absurd h3 (by decide)
  | ok cells0 =>
    rw [hb] at hload
    have hload2 : some ((⟨cells0, some (encodeTable tbl)⟩ : TableState), 0) =
        some (st, 0) := hload
    have h2 := Option.some.inj hload2
    have hstc : cells0 = st.cells := congrArg (fun q => q.1.cells) h2
    rw [hsl] at hb
    have hcells0 : cells0 = (tbl.map encodeLine).map parseLine := buildCells_ok _ _ hb
    have hcells2 : st.cells = tbl.map (fun row => parseLine (encodeLine row)) := by
      rw [← hstc, hcells0, List.map_map]
      rfl
    have hlen2 : r + 1 < (tbl.map (fun row => parseLine (encodeLine row))).length := by
      simpa using hr
    have hcv : CellValue st.cells r f =
        (parseLine (encodeLine (tbl.getD (r + 1) []))).getD f [] := by
      unfold CellValue
      rw [hcells2, List.getD_eq_getElem _ _ hlen2, List.getElem_map,
        ← List.getD_eq_getElem tbl _ hr]
    have hrmem : tbl.getD (r + 1) [] ∈ tbl := by
      rw [List.getD_eq_getElem tbl _ hr]
      exact List.getElem_mem hr
    have hrowlen : (tbl.getD (r + 1) []).length = M := hrows _ hrmem
    have hrowne : tbl.getD (r + 1) [] ≠ [] := by
      intro e
      rw [e] at hrowlen
      simp at hrowlen
      omega
    have hrwf : ∀ fq ∈ tbl.getD (r + 1) [], wfInLine fq :=
      fun fq hfq => (hwf _ hrmem fq hfq).1
    rw [hcv, parseLine_encodeLine _ hrowne hrwf]
    have hflen : f < ((tbl.getD (r + 1) []).map (fun fq => fq.1)).length := by
      rw [List.length_map, hrowlen]
      exact hf
    have hf2 : f < (tbl.getD (r + 1) []).length := by
      rw [hrowlen]
      exact hf
    rw [List.getD_append _ _ _ _ hflen,
      List.getD_eq_getElem _ _ hflen, List.getElem_map,
      ← List.getD_eq_getElem _ _ hf2]

/-- Witness for C1 at a concrete input: the two-line table with header fields h and
a quoted comma, and data row fields a and a quoted comma — the last field of each
line is quoted — loads successfully and `CellValue 0 1` recovers the comma field. -/
theorem C1_witness :
    CellValue [[['h'], [','], []], [['a'], [','], []]] 0 1 = [','] :=
  C1_load_recovers_cells
    [[(['h'], false), ([','], true)], [(['a'], false), ([','], true)]] 2
    (by decide) (by decide) 1
    ⟨[[['h'], [','], []], [['a'], [','], []]],
      some (encodeTable [[(['h'], false), ([','], true)], [(['a'], false), ([','], true)]])⟩
    rfl 0 1 (by decide) (by decide)

/-! Facts about serialization: `PrintTable` output is the encoding of the row with
the quoting choice dictated by `needsQuote`. -/

theorem textMode_append (a b : List Char) :
    textMode (a ++ b) = textMode a ++ textMode b := by
  induction a with
  | nil => rfl
  | cons c a ih => simp [textMode, ih]

theorem textMode_no_lf (l : List Char) (h : '\n' ∉ l) : textMode l = l := by
  induction l with
  | nil => rfl
  | cons c l ih =>
    have hc : ¬(c = '\n') := fun e => h (e ▸ List.mem_cons_self c l)
    have h2 : '\n' ∉ l := fun hm => h (List.mem_cons_of_mem c hm)
    simp [textMode, hc, ih h2]

theorem printField_eq_encodeField (f : CsvField) :
    printField f = encodeField (needsQuote f) f := by
  cases hq : needsQuote f <;> simp [printField, encodeField, hq]

theorem printRow_eq_encodeLine (row : CsvRow) :
    printRow row = encodeLine (row.map (fun f => (f, needsQuote f))) := by
  induction row with
  | nil => rfl
  | cons f row ih =>
    cases row with
    | nil =>
      show printField f = encodeLine [(f, needsQuote f)]
      rw [printField_eq_encodeField]
      rfl
    | cons f2 row2 =>
      show printField f ++ ',' :: printRow (f2 :: row2) = _
      rw [ih, printField_eq_encodeField]
      rfl

theorem needsQuote_false_of (f : CsvField) (hc : ',' ∉ f) (hq : dquote ∉ f) :
    needsQuote f = false := by
  unfold needsQuote
  rw [List.any_eq_false]
  intro x hx
  simp only [Bool.or_eq_true, beq_iff_eq, not_or]
  exact ⟨fun e => hc (e ▸ hx), fun e => hq (e ▸ hx)⟩

theorem needsQuote_false_mem (f : CsvField) (h : needsQuote f = false) :
    ',' ∉ f ∧ dquote ∉ f := by
  unfold needsQuote at h
  rw [List.any_eq_false] at h
  constructor
  · intro hm
    have := h ',' hm
    simp at this
  · intro hm
    have := h dquote hm
    simp at this

theorem lastQuoted_map_needsQuote (row : CsvRow) :
    lastQuoted (row.map (fun f => (f, needsQuote f))) = needsQuote (row.getLastD []) := by
  induction row with
  | nil =>
    show false = needsQuote []
    rfl
  | cons f row ih =>
    cases row with
    | nil => rfl
    | cons f2 row2 =>
      show lastQuoted ((f2 :: row2).map (fun f => (f, needsQuote f))) =
        needsQuote ((f :: f2 :: row2).getLastD [])
      rw [ih]
      rfl

theorem printTableBytes_eq_joinCRLF :
    ∀ cells : Cells, (∀ row ∈ cells, '\n' ∉ printRow row) →
      printTableBytes cells = joinCRLF (cells.map printRow) := by
  intro cells
  induction cells with
  | nil => intro _; rfl
  | cons row rest ih =>
    intro h
    have h0 : '\n' ∉ printRow row := h row (by simp)
    have hr : ∀ x ∈ rest, '\n' ∉ printRow x := fun x hx => h x (List.mem_cons_of_mem _ hx)
    show textMode (printRow row ++ '\n' :: printTableChars rest) = _
    rw [textMode_append, textMode_no_lf _ h0]
    have hlf : textMode ('\n' :: printTableChars rest) =
        crC :: Char.ofNat 10 :: textMode (printTableChars rest) := by
      simp [textMode, crC]
    rw [hlf]
    show printRow row ++ crC :: Char.ofNat 10 :: printTableBytes rest = _
    rw [ih hr]
    rfl

/-- Claim C2 counterexample: the input h CRLF a LF b CRLF loads successfully into
a table whose single data cell contains a bare line feed; writing that table (the
text-mode stream expands the embedded line feed to CR LF) and loading the output
again yields two data rows instead of one, so write-then-load does not preserve
the row count for every successfully loaded table. -/
theorem C2_roundtrip_counterexample :
    ReadFile true true ['h', crC, '\n', 'a', '\n', 'b', crC, '\n'] ⟨false, false, false⟩ 1 =
      some (⟨[[['h']], [['a', '\n', 'b']]],
        some ['h', crC, '\n', 'a', '\n', 'b', crC, '\n']⟩, 0) ∧
    ReadFile true true (printTableBytes [[['h']], [['a', '\n', 'b']]]) ⟨false, false, false⟩ 1 =
      some (⟨[[['h']], [['a']], [['b']]],
        some (printTableBytes [[['h']], [['a', '\n', 'b']]])⟩, 0) ∧
    RowCount [[['h']], [['a']], [['b']]] ≠ RowCount [[['h']], [['a', '\n', 'b']]] := by
  exact ⟨rfl, rfl, by decide⟩

/-- Claim C2 amended: for every table with nonempty rows all of the header's field
count, in which no cell contains a line feed and no row's last cell contains a
comma or a double quote — conditions every table loaded from an input free of
stray line feeds and unterminated quotes satisfies — serializing with `WriteFile`
(quoting a field iff it contains a comma or quote, doubling embedded quotes) and
loading the output again reproduces exactly the same cell grid, hence identical
row count, field count and cell contents. -/
theorem C2_roundtrip_amended
    (cells : Cells)
    (hrowsne : ∀ row ∈ cells, row ≠ [])
    (hrect : ∀ row ∈ cells, row.length = FieldCount cells)
    (hnl : ∀ row ∈ cells, ∀ fld ∈ row, '\n' ∉ fld)
    (hlast : ∀ row ∈ cells, ',' ∉ row.getLastD [] ∧ dquote ∉ row.getLastD [])
    (fuel : Nat) :
    ReadFile true true (printTableBytes cells) ⟨false, false, false⟩ fuel =
      some (⟨cells, some (printTableBytes cells)⟩, 0) := by
  have hnlpr : ∀ row ∈ cells, '\n' ∉ printRow row := by
    intro row hrow hmem
    rw [printRow_eq_encodeLine] at hmem
    rcases mem_encodeLine '\n' _ hmem with h | h | ⟨fq, hfq, hc⟩
    · exact absurd h (by decide)
    · exact absurd h (by decide)
    · obtain ⟨fld, hfld, rfl⟩ := List.mem_map.mp hfq
      exact hnl row hrow fld hfld hc
  have hparse : ∀ row ∈ cells, parseLine (printRow row) = row := by
    intro row hrow
    rw [printRow_eq_encodeLine]
    have hne : row.map (fun f => (f, needsQuote f)) ≠ [] := by
      simp [hrowsne row hrow]
    have hwfl : ∀ fq ∈ row.map (fun f => (f, needsQuote f)), wfInLine fq := by
      intro fq hfq
      obtain ⟨fld, _, rfl⟩ := List.mem_map.mp hfq
      intro hq
      exact needsQuote_false_mem fld hq
    rw [parseLine_encodeLine _ hne hwfl, lastQuoted_map_needsQuote,
      needsQuote_false_of _ (hlast row hrow).1 (hlast row hrow).2]
    have hcomp : List.map (fun fq : CsvField × Bool => fq.1)
        (row.map (fun f => (f, needsQuote f))) = row := by
      rw [List.map_map]
      exact List.map_id row
    simp [hcomp]
  have hsl2 : splitLines (printTableBytes cells) = cells.map printRow := by
    rw [printTableBytes_eq_joinCRLF cells hnlpr]
    apply splitLines_joinCRLF
    intro l hl
    obtain ⟨row, hrow, rfl⟩ := List.mem_map.mp hl
    exact hnlpr row hrow
  have hmaps : (cells.map printRow).map parseLine = cells := by
    rw [List.map_map]
    have hcongr : cells.map (parseLine ∘ printRow) = cells.map id :=
      List.map_eq_map_iff.mpr (fun row hrow => hparse row hrow)
    rw [hcongr, List.map_id]
  have hlens : ∀ l ∈ cells.map printRow,
      (parseLine l).length = (parseLine ((cells.map printRow).getD 0 [])).length := by
    cases cells with
    | nil => intro l hl; exact absurd hl (by simp)
    | cons c0 rest =>
      intro l hl
      obtain ⟨row, hrow, rfl⟩ := List.mem_map.mp hl
      have hg0 : ((c0 :: rest).map printRow).getD 0 [] = printRow c0 := by simp
      rw [hg0, hparse row hrow, hparse c0 (by simp)]
      rw [hrect row hrow, hrect c0 (by simp)]
  have hb : buildCells (cells.map printRow) = Except.ok cells := by
    have := buildCells_ok_of (cells.map printRow) hlens
    rw [hmaps] at this
    exact this
  unfold ReadFile
  rw [hsl2, hb]
  rfl

/-- Witness for C2 amended at a concrete table: a header h1,h2 with one data row
whose first cell contains a comma (so it is re-quoted on write) and whose last
cell is empty round-trips exactly through write-then-load. -/
theorem C2_witness :
    ReadFile true true (printTableBytes [[['h', '1'], ['h', '2']], [['x', ',', 'y'], []]])
        ⟨false, false, false⟩ 1 =
      some (⟨[[['h', '1'], ['h', '2']], [['x', ',', 'y'], []]],
        some (printTableBytes [[['h', '1'], ['h', '2']], [['x', ',', 'y'], []]])⟩, 0) :=
  C2_roundtrip_amended [[['h', '1'], ['h', '2']], [['x', ',', 'y'], []]]
    (by decide) (by decide) (by decide) (by decide) 1
